import Mathlib

/-
Verification of the chunking and orchestration core of after_words.py.

The Python source is shallowly embedded below.  Python strings are modelled
as Lean `String` (a list of characters; Python indexing and `len` are by code
point, which matches `String.data`).  The whitespace class of the regexes and
of `str.strip` / `str.split` is modelled by the ASCII whitespace characters
(space, tab, newline, carriage return, vertical tab, form feed); the Python
versions additionally accept some rare Unicode whitespace, which no claim
exercises.  Likewise the digit class of the break regex is modelled by the
ASCII digits.
-/

namespace AfterWords

/-- Configuration constant TARGET_WORDS_PER_PAGE of after_words.py. -/
def TARGET_WORDS_PER_PAGE : Nat := 500

/-- Configuration constant MAX_WORDS_PER_PAGE of after_words.py. -/
def MAX_WORDS_PER_PAGE : Nat := 800

/-- Configuration constant PRESERVE_CHAPTER_BREAKS of after_words.py. -/
def PRESERVE_CHAPTER_BREAKS : Bool := true

/-- Configuration constant RETRY_ATTEMPTS of after_words.py. -/
def RETRY_ATTEMPTS : Nat := 3

/-- Configuration constant SAVE_THINKING_LOG of after_words.py. -/
def SAVE_THINKING_LOG : Bool := true

/-- The ASCII whitespace characters recognised by the Python regex class
backslash-s and by `str.strip` / `str.split`. -/
def isPySpace (c : Char) : Bool :=
  c = ' ' || c = '\t' || c = '\n' || c = '\r' || c = '\x0b' || c = '\x0c'

/-- Python `s.strip()`: remove leading and trailing whitespace. -/
def pyStrip (s : String) : String :=
  String.mk (((s.data.dropWhile isPySpace).reverse.dropWhile isPySpace).reverse)

/-- Python `s.lower()` (ASCII case mapping; every string it is applied to in
the source is ASCII). -/
def pyLower (s : String) : String :=
  String.mk (s.data.map Char.toLower)

/-- Helper for `word_count`: counts the maximal runs of non-whitespace
characters, scanning left to right; `inWord` records whether the previous
character was part of a word. -/
def wordCountGo : List Char → Bool → Nat
  | [], _ => 0
  | c :: cs, inWord =>
    if isPySpace c then wordCountGo cs false
    else (if inWord then 0 else 1) + wordCountGo cs true

/-- Python `len(para.split())` as used in split_into_pages: the number of
whitespace-delimited tokens. -/
def word_count (s : String) : Nat :=
  wordCountGo s.data false

/-- Word count of a page given as its list of paragraphs: the sum of the
word counts of the paragraphs. -/
def pageWords (page : List String) : Nat :=
  (page.map word_count).sum

/-- Number of newline characters in a buffered whitespace run. -/
def nlCount (ws : List Char) : Nat :=
  ws.count '\n'

/-- The part of a whitespace run strictly before its first newline. -/
def wsBeforeNl (ws : List Char) : List Char :=
  ws.takeWhile (fun c => ¬ c = '\n')

/-- The part of a whitespace run strictly after its last newline. -/
def wsAfterNl (ws : List Char) : List Char :=
  (ws.reverse.takeWhile (fun c => ¬ c = '\n')).reverse

/-- Models Python `re.split` with the pattern backslash-n backslash-s-star
backslash-n-plus of split_into_pages.  A match of that pattern starts at a
newline, runs through whitespace, and ends at the last newline of the
maximal whitespace run it entered (the greedy star backtracks to leave a
final newline for the plus).  Hence each maximal whitespace run containing
at least two newlines is exactly one separator match, consuming the run
from its first newline through its last newline; whitespace of the run
before the first newline stays with the left chunk and whitespace after the
last newline stays with the right chunk.  A run with fewer than two
newlines contains no match.  `accRev` holds the current chunk reversed;
`ws` buffers the pending whitespace run in order. -/
def splitBlankGo : List Char → List Char → List Char → List String
  | [], accRev, ws =>
    if 2 ≤ nlCount ws then
      [String.mk (accRev.reverse ++ wsBeforeNl ws), String.mk (wsAfterNl ws)]
    else
      [String.mk (accRev.reverse ++ ws)]
  | c :: cs, accRev, ws =>
    if isPySpace c then
      splitBlankGo cs accRev (ws ++ [c])
    else if 2 ≤ nlCount ws then
      String.mk (accRev.reverse ++ wsBeforeNl ws)
        :: splitBlankGo cs (c :: (wsAfterNl ws).reverse) []
    else
      splitBlankGo cs (c :: ws.reverse ++ accRev) []

/-- The paragraph split of split_into_pages, line 134 of after_words.py. -/
def pySplitBlank (text : String) : List String :=
  splitBlankGo text.data [] []

/-- True when `c` belongs to the character class of digits and Roman numeral
letters in the break regex of split_into_pages. -/
def isRomanDigit (c : Char) : Bool :=
  c.isDigit || c = 'I' || c = 'V' || c = 'X' || c = 'L' ||
    c = 'C' || c = 'D' || c = 'M'

/-- The alternation `(Chapter|CHAPTER|Part|PART)` of the break regex,
anchored at the start: returns the characters after the matched token.  The
four alternatives are mutually exclusive, so first-match order does not
matter. -/
def headTokRest (cs : List Char) : Option (List Char) :=
  if "Chapter".data.isPrefixOf cs then some (cs.drop 7)
  else if "CHAPTER".data.isPrefixOf cs then some (cs.drop 7)
  else if "Part".data.isPrefixOf cs then some (cs.drop 4)
  else if "PART".data.isPrefixOf cs then some (cs.drop 4)
  else none

/-- Models `re.match` of the break regex of split_into_pages, line 148: a
heading token, then at least one whitespace character, then at least one
digit or Roman numeral letter, as a match anchored at the start of the
paragraph (the rest of the paragraph is unconstrained). -/
def isStructuralBreak (p : String) : Bool :=
  match headTokRest p.data with
  | none => false
  | some rest =>
    match rest with
    | [] => false
    | c :: _ =>
      isPySpace c &&
        (match rest.dropWhile isPySpace with
         | [] => false
         | d :: _ => isRomanDigit d)

/-- The paragraph loop of split_into_pages, lines 140 to 173 of
after_words.py, with the pages kept as lists of paragraphs (the source
appends each completed page joined by a double line-break; the join is
applied in `split_into_pages` below).  `current` is current_page and
`count` is current_word_count. -/
def pagesLoop (preserve : Bool) (target maxW : Nat) :
    List String → List String → Nat → List (List String)
  | [], current, _ =>
    if current.isEmpty then [] else [current]
  | para :: rest, current, count =>
    let p := pyStrip para
    if p = "" then
      pagesLoop preserve target maxW rest current count
    else
      let wc := word_count p
      if preserve = true ∧ isStructuralBreak p = true then
        (if current.isEmpty then [] else [current])
          ++ pagesLoop preserve target maxW rest [p] wc
      else if maxW < count + wc ∧ current ≠ [] then
        current :: pagesLoop preserve target maxW rest [p] wc
      else if target ≤ count ∧ current ≠ [] then
        current :: pagesLoop preserve target maxW rest [p] wc
      else
        pagesLoop preserve target maxW rest (current ++ [p]) (count + wc)

/-- split_into_pages of after_words.py at the paragraph level: the pages in
order, each as its list of paragraphs. -/
def splitIntoPagesParas (text : String) : List (List String) :=
  pagesLoop PRESERVE_CHAPTER_BREAKS TARGET_WORDS_PER_PAGE MAX_WORDS_PER_PAGE
    (pySplitBlank text) [] 0

/-- split_into_pages of after_words.py: each page is its paragraphs joined
by a double line-break. -/
def split_into_pages (text : String) : List String :=
  (splitIntoPagesParas text).map (String.intercalate "\n\n")

/-- The non-empty trimmed paragraphs of the source text, in order: the
reference sequence of the pagination completeness property. -/
def nonEmptyParas (text : String) : List String :=
  ((pySplitBlank text).map pyStrip).filter (fun p => p ≠ "")

/-- Configuration constant TARGET_AUTHOR of after_words.py. -/
def TARGET_AUTHOR : String := "Sheila Heti"

/-- Configuration constant TARGET_AUTHOR_STYLE of after_words.py (the entry
of the style dictionary for the target author). -/
def TARGET_AUTHOR_STYLE : String :=
  "Write with a searching, self-aware energy that continually questions its own motives and hesitations, layering confession with detour, and detour with revelation. Let the sentences wander toward discovery, refusing neatness, sometimes exposing the scaffolding of thought, sometimes tumbling into lyric candor. The tone should feel both intimate and estranged, as though the act of writing is simultaneously creating and undoing the world it describes."

/-- Configuration constant SOURCE_LANGUAGE of after_words.py. -/
def SOURCE_LANGUAGE : String := "German"

/-- Configuration constant TARGET_LANGUAGE of after_words.py. -/
def TARGET_LANGUAGE : String := "English"

/-- Template SYSTEM_PROMPT of after_words.py. -/
def SYSTEM_PROMPT : String :=
  "You are a master literary translator and writer with deep expertise in {target_author}\x27s distinctive writing style. Your task is to translate and rewrite the given text from {source_language} into {target_language}, capturing not just the meaning but transforming it into {target_author}\x27s unique voice and style.\n\nALL OUTPUT WORDS MUST BE IN ENGLISH\n\nCRITICAL INSTRUCTIONS:\n- Output ONLY the translated and rewritten text\n- Use no formatting markers, no titles, no metadata\n- Do not add explanatory notes or commentary\n- Do not ask questions or make suggestions\n- Simply produce the raw literary text in the target style\n- Maintain paragraph breaks as in the original\n- This is creative literary translation, not literal translation\n- Preserve paragraph breaks, but do not preserve line breaks (do not break sentences)\n- ALL OUTPUT WORDS MUST BE IN ENGLISH"

/-- Template USER_PROMPT of after_words.py. -/
def USER_PROMPT : String :=
  "Translate and rewrite the following text into {target_language} in the distinctive style of {target_author}. Remember: output ONLY the translated literary text, nothing else.\n\nALL OUTPUT WORDS MUST BE IN ENGLISH\n\nThis is not a mechanical act of carrying words across borders, but a re-imagining in which the story is pressed through a new consciousness. The text should emerge altered, like fabric washed and wrung out until the weave shows different patterns of light. It must not only reproduce meaning but metabolize it, carrying the marks of the present voice, the accidents of choice, the inevitable distortions that become its signature.\n\n{target_author_style}\n\nOriginal text:\n---\n{text}\n---\n\nALL OUTPUT WORDS MUST BE IN ENGLISH\n\nNow produce the translation in {target_author}\x27s style:"

/-- The request sent to the generation capability: the system message and
the user message of the messages list of translate_page. -/
structure ChatRequest where
  system : String
  user : String
deriving DecidableEq

/-- The request construction of translate_page, lines 201 to 217 of
after_words.py: the two templates with their fields substituted (each
placeholder occurs only in the template, and no substituted value contains
a placeholder, so sequential replacement with the page text last agrees
with the simultaneous Python format call).  The request is built once,
before the retry loop. -/
def mkRequest (page_text : String) : ChatRequest :=
  { system :=
      ((SYSTEM_PROMPT.replace "{target_author}" TARGET_AUTHOR).replace
          "{source_language}"
          (if SOURCE_LANGUAGE ≠ "auto" then SOURCE_LANGUAGE
           else "the source language")).replace
        "{target_language}" TARGET_LANGUAGE
    user :=
      ((((USER_PROMPT.replace "{target_language}" TARGET_LANGUAGE).replace
            "{target_author}" TARGET_AUTHOR).replace
          "{target_author_style}" TARGET_AUTHOR_STYLE).replace
        "{text}" page_text) }

/-- List prefixes_to_remove of translate_page, line 295 of after_words.py. -/
def prefixes_to_remove : List String :=
  ["Here is the translation:",
   "Translation:",
   "Here\x27s the text translated",
   "Translated text:"]

/-- One iteration of the cleanup loop of translate_page, lines 301 to 303:
if the content starts, case-insensitively, with the marker, remove that
many leading characters and trim; otherwise leave the content unchanged. -/
def stripOneMarker (content : String) (p : String) : String :=
  if (pyLower p).data.isPrefixOf (pyLower content).data then
    pyStrip (String.mk (content.data.drop p.data.length))
  else content

/-- The final-channel cleanup of translate_page, lines 288 to 303: trim the
buffer, then run the cleanup loop over every listed marker in order (the
Python loop has no early exit). -/
def clean_content (content : String) : String :=
  prefixes_to_remove.foldl stripOneMarker (pyStrip content)

/-- A reply of the generation capability for one attempt: the accumulated
final-channel text and the accumulated reasoning text (the streaming and
non-streaming branches of translate_page both produce exactly this pair;
the incremental persistence along the way has no effect on it). -/
def RawReply : Type := String × String

/-- The retry loop of translate_page, lines 219 to 319 of after_words.py.
`cap` is the generation capability, called with the request and the current
value of the attempts counter; a raised exception is an `Except.error`.
`attempts` is the Python attempts counter and `left` the number of loop
iterations still allowed, so the loop is entered with
`left = RETRY_ATTEMPTS`; the `left = 0` pattern is unreachable from
`translate_page` because RETRY_ATTEMPTS = 3.  On a failure with attempts
remaining the loop retries after a fixed delay (the delay has no effect on
the result and is not modelled); on the last allowed failure the error
propagates.  The second component collects the request of every call made,
in order. -/
def attemptLoop (cap : ChatRequest → Nat → Except String RawReply)
    (req : ChatRequest) :
    Nat → Nat → Except String RawReply × List ChatRequest
  | _, 0 => (Except.error "", [])
  | attempts, left + 1 =>
    match cap req attempts with
    | Except.ok r => (Except.ok r, [req])
    | Except.error e =>
      if left = 0 then (Except.error e, [req])
      else
        let next := attemptLoop cap req (attempts + 1) left
        (next.1, req :: next.2)

/-- translate_page of after_words.py: builds the request once, runs the
retry loop, and on success returns the cleaned final text together with the
full reasoning text.  The second component is the list of requests issued
to the generation capability. -/
def translate_page (cap : ChatRequest → Nat → Except String RawReply)
    (page_text : String) : Except String (String × String) × List ChatRequest :=
  let req := mkRequest page_text
  let r := attemptLoop cap req 0 RETRY_ATTEMPTS
  (r.1.map (fun ct => (clean_content ct.1, ct.2)), r.2)

/-- One record of the thinking log, lines 402 to 407 of after_words.py. -/
structure TraceEntry where
  page : Nat
  original_preview : String
  thinking : String
  translation_preview : String
deriving DecidableEq

/-- Python `s[:200]`: the first 200 characters. -/
def preview200 (s : String) : String :=
  String.mk (s.data.take 200)

/-- The page loop of main, lines 385 to 422 of after_words.py.  `oracle i`
is the outcome of translate_page for page number `i` in this run: the
translated text and the thinking text on success, the propagated error
after retry-budget exhaustion on failure.  `out` is the content of the
output file so far and `log` the thinking_log list so far.  On success the
loop writes a double line-break separator whenever the page number exceeds
1, then the translated text, and appends a thinking-log record when the
thinking text is non-empty; on failure it writes nothing and continues
with the next page.  (The periodic rewrite of the thinking-log file and
the inter-page delay do not affect the final state and are not modelled.) -/
def mainLoop (oracle : Nat → Except String (String × String)) :
    List (Nat × String) → String → List TraceEntry → String × List TraceEntry
  | [], out, log => (out, log)
  | (i, page) :: rest, out, log =>
    match oracle i with
    | Except.error _ => mainLoop oracle rest out log
    | Except.ok (translated, thinking) =>
      let out2 := out ++ (if 1 < i then "\n\n" else "") ++ translated
      let log2 :=
        if SAVE_THINKING_LOG = true ∧ thinking ≠ "" then
          log ++ [⟨i, preview200 page, thinking, preview200 translated⟩]
        else log
      mainLoop oracle rest out2 log2

/-- The whole run of main over the page list (test mode off, so every page
is processed): final content of the output artifact and final thinking
log, starting from an empty output file and an empty log, with the pages
numbered from 1 as by the Python enumerate. -/
def runMain (oracle : Nat → Except String (String × String))
    (pages : List String) : String × List TraceEntry :=
  mainLoop oracle (List.enumFrom 1 pages) "" []

/-- Amended description of the output artifact, written from the amended
claim C4 for comparison with `runMain`: the concatenation, over the pages
in order, of the contributions of the successful pages, the contribution
of a successful page being its final text preceded by a double line-break
exactly when its page number exceeds 1. -/
def artifactSpec (oracle : Nat → Except String (String × String)) :
    List (Nat × String) → String
  | [] => ""
  | (i, _) :: rest =>
    match oracle i with
    | Except.ok (t, _) =>
      ((if 1 < i then "\n\n" else "") ++ t) ++ artifactSpec oracle rest
    | Except.error _ => artifactSpec oracle rest

/-- The possible outcomes of removing at most one boilerplate marker from
the trimmed final text, written from the claim C2 wording for comparison
with `clean_content`: either the trimmed text unchanged, or the trimmed
text with exactly one matching listed marker removed from its start. -/
def atMostOneStripResults (s : String) : List String :=
  pyStrip s :: prefixes_to_remove.filterMap (fun p =>
    if (pyLower p).data.isPrefixOf (pyLower (pyStrip s)).data then
      some (pyStrip (String.mk ((pyStrip s).data.drop p.data.length)))
    else none)

/-- The concatenation of the pages produced by the paragraph loop is the
current page followed by the non-empty trimmed paragraphs still to come:
the loop only moves paragraphs between the current page and the output,
never drops, duplicates or reorders one. -/
theorem pagesLoop_flatten (preserve : Bool) (target maxW : Nat)
    (paras : List String) :
    ∀ (current : List String) (count : Nat),
    (pagesLoop preserve target maxW paras current count).flatten
      = current ++ (paras.map pyStrip).filter (fun p => p ≠ "") := by
  induction paras with
  | nil =>
    intro current count
    by_cases h : current = [] <;> simp [pagesLoop, h]
  | cons para rest ih =>
    intro current count
    simp only [pagesLoop]
    by_cases h0 : pyStrip para = ""
    · rw [if_pos h0, ih, List.map_cons, List.filter_cons]
      simp [h0]
    · rw [if_neg h0, List.map_cons, List.filter_cons,
        if_pos (by simp [h0] : (decide (pyStrip para ≠ "")) = true)]
      by_cases h1 : preserve = true ∧ isStructuralBreak (pyStrip para) = true
      · rw [if_pos h1]
        by_cases hc : current = [] <;> simp [hc, ih]
      · rw [if_neg h1]
        by_cases h2 : maxW < count + word_count (pyStrip para) ∧ current ≠ []
        · rw [if_pos h2]
          simp [ih]
        · rw [if_neg h2]
          by_cases h3 : target ≤ count ∧ current ≠ []
          · rw [if_pos h3]
            simp [ih]
          · rw [if_neg h3]
            simp [ih]

/-- Every page emitted by the paragraph loop is non-empty: pages are only
flushed when the current page has content, and a fresh page always starts
with a paragraph. -/
theorem pagesLoop_ne_nil (preserve : Bool) (target maxW : Nat)
    (paras : List String) :
    ∀ (current : List String) (count : Nat),
    ∀ page ∈ pagesLoop preserve target maxW paras current count, page ≠ [] := by
  induction paras with
  | nil =>
    intro current count page hmem
    by_cases h : current = []
    · simp [pagesLoop, h] at hmem
    · simp [pagesLoop, h] at hmem
      simp [hmem, h]
  | cons para rest ih =>
    intro current count page hmem
    simp only [pagesLoop] at hmem
    by_cases h0 : pyStrip para = ""
    · rw [if_pos h0] at hmem
      exact ih current count page hmem
    · rw [if_neg h0] at hmem
      by_cases h1 : preserve = true ∧ isStructuralBreak (pyStrip para) = true
      · rw [if_pos h1] at hmem
        by_cases hc : current = []
        · simp [hc] at hmem
          exact ih [pyStrip para] _ page hmem
        · simp [hc] at hmem
          rcases hmem with h | h
          · simp [h, hc]
          · exact ih [pyStrip para] _ page h
      · rw [if_neg h1] at hmem
        by_cases h2 : maxW < count + word_count (pyStrip para) ∧ current ≠ []
        · rw [if_pos h2] at hmem
          rcases List.mem_cons.mp hmem with h | h
          · simp [h, h2.2]
          · exact ih [pyStrip para] _ page h
        · rw [if_neg h2] at hmem
          by_cases h3 : target ≤ count ∧ current ≠ []
          · rw [if_pos h3] at hmem
            rcases List.mem_cons.mp hmem with h | h
            · simp [h, h3.2]
            · exact ih [pyStrip para] _ page h
          · rw [if_neg h3] at hmem
            exact ih (current ++ [pyStrip para]) _ page hmem

/-- Word-count invariant of the paragraph loop: provided the running count
is the word count of the current page and a current page of two or more
paragraphs is within the maximum, every emitted page of two or more
paragraphs has word count at most the maximum.  A paragraph only joins a
non-empty current page when the combined count stays within `maxW`. -/
theorem pagesLoop_bound (preserve : Bool) (target maxW : Nat)
    (paras : List String) :
    ∀ (current : List String) (count : Nat),
    count = pageWords current →
    (1 < current.length → count ≤ maxW) →
    ∀ page ∈ pagesLoop preserve target maxW paras current count,
      1 < page.length → pageWords page ≤ maxW := by
  induction paras with
  | nil =>
    intro current count hcnt hinv page hmem hlen
    by_cases h : current = []
    · simp [pagesLoop, h] at hmem
    · simp [pagesLoop, h] at hmem
      rw [hmem] at hlen ⊢
      rw [← hcnt]
      exact hinv hlen
  | cons para rest ih =>
    intro current count hcnt hinv page hmem hlen
    simp only [pagesLoop] at hmem
    by_cases h0 : pyStrip para = ""
    · rw [if_pos h0] at hmem
      exact ih current count hcnt hinv page hmem hlen
    · rw [if_neg h0] at hmem
      by_cases h1 : preserve = true ∧ isStructuralBreak (pyStrip para) = true
      · rw [if_pos h1] at hmem
        by_cases hc : current = []
        · simp [hc] at hmem
          exact ih [pyStrip para] _ (by simp [pageWords]) (by simp) page hmem hlen
        · simp [hc] at hmem
          rcases hmem with h | h
          · rw [h] at hlen ⊢
            rw [← hcnt]
            exact hinv hlen
          · exact ih [pyStrip para] _ (by simp [pageWords]) (by simp) page h hlen
      · rw [if_neg h1] at hmem
        by_cases h2 : maxW < count + word_count (pyStrip para) ∧ current ≠ []
        · rw [if_pos h2] at hmem
          rcases List.mem_cons.mp hmem with h | h
          · rw [h] at hlen ⊢
            rw [← hcnt]
            exact hinv hlen
          · exact ih [pyStrip para] _ (by simp [pageWords]) (by simp) page h hlen
        · rw [if_neg h2] at hmem
          by_cases h3 : target ≤ count ∧ current ≠ []
          · rw [if_pos h3] at hmem
            rcases List.mem_cons.mp hmem with h | h
            · rw [h] at hlen ⊢
              rw [← hcnt]
              exact hinv hlen
            · exact ih [pyStrip para] _ (by simp [pageWords]) (by simp) page h hlen
          · rw [if_neg h3] at hmem
            refine ih (current ++ [pyStrip para]) _ ?_ ?_ page hmem hlen
            · simp [pageWords, hcnt]
            · intro hlen2
              by_cases hc : current = []
              · rw [hc] at hlen2
                simp at hlen2
              · have hle : ¬ maxW < count + word_count (pyStrip para) :=
                  fun hlt => h2 ⟨hlt, hc⟩
                omega

/-- Rebuilding a string from its character list gives the string back. -/
theorem mk_data (s : String) : String.mk s.data = s := by
  obtain ⟨d⟩ := s
  rfl

/-- Scanning non-whitespace characters while already inside a word adds no
words. -/
theorem wcg_inword (w : List Char) (hw : ∀ c ∈ w, isPySpace c = false) :
    ∀ rest : List Char, wordCountGo (w ++ rest) true = wordCountGo rest true := by
  induction w with
  | nil => intro rest; rfl
  | cons c w ih =>
    intro rest
    have hc : isPySpace c = false := hw c (by simp)
    simp only [List.cons_append, wordCountGo, hc]
    simp [ih fun d hd => hw d (by simp [hd])]

/-- A non-empty run of non-whitespace characters counts exactly one word,
whatever follows it is counted from the in-word state. -/
theorem wcg_word (c : Char) (w : List Char)
    (hw : ∀ d ∈ c :: w, isPySpace d = false) (rest : List Char) :
    wordCountGo ((c :: w) ++ rest) false = 1 + wordCountGo rest true := by
  have hc : isPySpace c = false := hw c (by simp)
  simp only [List.cons_append, wordCountGo, hc]
  simp [wcg_inword w (fun d hd => hw d (by simp [hd])) rest]

/-- A single space leaves the in-word state. -/
theorem wcg_space (rest : List Char) :
    wordCountGo (' ' :: rest) true = wordCountGo rest false := by
  simp [wordCountGo, isPySpace]

/-- Concrete source text used below: `n + 1` copies of the word `w`
separated by single spaces. -/
def manyWords (w : String) : Nat → String
  | 0 => w
  | n + 1 => w ++ " " ++ manyWords w n

/-- Character-list shape of `manyWords`. -/
theorem manyWords_data (w : String) (n : Nat) :
    (manyWords w (n + 1)).data = w.data ++ ' ' :: (manyWords w n).data := by
  show (w ++ " " ++ manyWords w n).data = _
  simp [String.data_append]

/-- Every character of `manyWords w n` is a character of `w` or a space. -/
theorem manyWords_chars (w : String) :
    ∀ (n : Nat), ∀ c ∈ (manyWords w n).data, c ∈ w.data ∨ c = ' ' := by
  intro n
  induction n with
  | zero => intro c hc; exact Or.inl hc
  | succ n ih =>
    intro c hc
    rw [manyWords_data] at hc
    rcases List.mem_append.mp hc with h | h
    · exact Or.inl h
    · rcases List.mem_cons.mp h with h | h
      · exact Or.inr h
      · exact ih c h

/-- `manyWords w n` starts with the characters of `w`. -/
theorem manyWords_head (w : String) (n : Nat) :
    ∃ t, (manyWords w n).data = w.data ++ t := by
  cases n with
  | zero => exact ⟨[], by simp [manyWords]⟩
  | succ n => exact ⟨' ' :: (manyWords w n).data, manyWords_data w n⟩

/-- `manyWords w n` ends with the characters of `w`. -/
theorem manyWords_last (w : String) :
    ∀ n, ∃ t, (manyWords w n).data = t ++ w.data := by
  intro n
  induction n with
  | zero => exact ⟨[], by simp [manyWords]⟩
  | succ n ih =>
    obtain ⟨t, ht⟩ := ih
    refine ⟨w.data ++ ' ' :: t, ?_⟩
    rw [manyWords_data, ht]
    simp

/-- Word count of `manyWords`: `n + 1` single-space-separated copies of a
non-empty all-non-whitespace word count as `n + 1` words. -/
theorem word_count_manyWords (c : Char) (w : List Char) (s : String)
    (hs : s.data = c :: w) (hw : ∀ d ∈ c :: w, isPySpace d = false) :
    ∀ n, word_count (manyWords s n) = n + 1 := by
  intro n
  induction n with
  | zero =>
    show wordCountGo (manyWords s 0).data false = 1
    show wordCountGo s.data false = 1
    rw [hs, ← List.append_nil (c :: w), wcg_word c w hw []]
    rfl
  | succ n ih =>
    show wordCountGo (manyWords s (n + 1)).data false = n + 2
    rw [manyWords_data, hs, wcg_word c w hw, wcg_space]
    have : wordCountGo (manyWords s n).data false = n + 1 := ih
    rw [this]
    omega

/-- Taking while a predicate holds over a block that satisfies it passes
the whole block. -/
theorem takeWhile_all (p : Char → Bool) (xs ys : List Char)
    (h : ∀ x ∈ xs, p x = true) :
    List.takeWhile p (xs ++ ys) = xs ++ List.takeWhile p ys := by
  induction xs with
  | nil => simp
  | cons a l ih =>
    simp only [List.cons_append, List.takeWhile_cons, h a (by simp)]
    simp [ih fun x hx => h x (by simp [hx])]

/-- A whitespace buffer without a newline has newline count zero. -/
theorem nlCount_eq_zero (ws : List Char) (h : '\n' ∉ ws) : nlCount ws = 0 :=
  List.count_eq_zero.mpr h

/-- The splitter over characters containing no newline completes no
separator: everything, including the pending whitespace, folds into one
final chunk. -/
theorem splitBlankGo_no_nl :
    ∀ (A : List Char), (∀ c ∈ A, c ≠ '\n') →
    ∀ (accRev ws : List Char), '\n' ∉ ws →
    splitBlankGo A accRev ws = [String.mk (accRev.reverse ++ ws ++ A)] := by
  intro A
  induction A with
  | nil =>
    intro _ accRev ws hws
    have h0 : nlCount ws = 0 := nlCount_eq_zero ws hws
    simp only [splitBlankGo]
    rw [if_neg (by omega)]
    simp
  | cons a A ih =>
    intro hA accRev ws hws
    have ha : a ≠ '\n' := hA a (by simp)
    have hA2 : ∀ c ∈ A, c ≠ '\n' := fun c hc => hA c (by simp [hc])
    by_cases hsp : isPySpace a = true
    · simp only [splitBlankGo, hsp, if_true, List.append_eq]
      rw [ih hA2 accRev (ws ++ [a]) (by simp [hws, Ne.symm ha])]
      simp
    · simp only [splitBlankGo, List.append_eq]
      rw [if_neg (by simp [hsp]), if_neg (by rw [nlCount_eq_zero ws hws]; omega)]
      rw [ih hA2 (a :: ws.reverse ++ accRev) [] (by simp)]
      simp

/-- The splitter over a newline-free block followed by a double newline and
a non-whitespace character completes exactly one separator there: the block
together with the pending whitespace is emitted as a chunk and scanning
resumes with the non-whitespace character opening the next chunk. -/
theorem splitBlankGo_sep :
    ∀ (A : List Char), (∀ c ∈ A, c ≠ '\n') →
    ∀ (accRev ws : List Char), '\n' ∉ ws →
    ∀ (b : Char), isPySpace b = false → ∀ (B : List Char),
    splitBlankGo (A ++ '\n' :: '\n' :: b :: B) accRev ws
      = String.mk (accRev.reverse ++ ws ++ A) :: splitBlankGo B [b] [] := by
  intro A
  induction A with
  | nil =>
    intro _ accRev ws hws b hb B
    have hnlsp : isPySpace '\n' = true := rfl
    simp only [List.nil_append, splitBlankGo, hnlsp, if_true]
    have h2 : 2 ≤ nlCount ((ws ++ ['\n']) ++ ['\n']) := by
      simp [nlCount, List.count_append, nlCount_eq_zero ws hws]
    rw [if_neg (by simp [hb]), if_pos h2]
    have hBefore : wsBeforeNl ((ws ++ ['\n']) ++ ['\n']) = ws := by
      rw [List.append_assoc]
      unfold wsBeforeNl
      rw [takeWhile_all _ ws _ (by intro x hx; simp; exact fun hx2 => hws (hx2 ▸ hx))]
      simp
    have hAfter : wsAfterNl ((ws ++ ['\n']) ++ ['\n']) = [] := by
      unfold wsAfterNl
      simp
    rw [hBefore, hAfter]
    simp
  | cons a A ih =>
    intro hA accRev ws hws b hb B
    have ha : a ≠ '\n' := hA a (by simp)
    have hA2 : ∀ c ∈ A, c ≠ '\n' := fun c hc => hA c (by simp [hc])
    by_cases hsp : isPySpace a = true
    · simp only [List.cons_append, splitBlankGo, hsp, if_true, List.append_eq]
      rw [ih hA2 accRev (ws ++ [a]) (by simp [hws, Ne.symm ha]) b hb B]
      simp
    · simp only [List.cons_append, splitBlankGo, List.append_eq]
      rw [if_neg (by simp [hsp]), if_neg (by rw [nlCount_eq_zero ws hws]; omega)]
      rw [ih hA2 (a :: (ws.reverse ++ accRev)) [] (by simp) b hb B]
      simp

/-- The paragraph split of a text made of three paragraphs joined by double
line-breaks, each paragraph free of newlines and starting with a
non-whitespace character, recovers exactly the three paragraphs. -/
theorem pySplitBlank_three (pa pb pc : String)
    (hpa : ∀ c ∈ pa.data, c ≠ '\n')
    (hpb : ∀ c ∈ pb.data, c ≠ '\n')
    (hpc : ∀ c ∈ pc.data, c ≠ '\n')
    (b0 : Char) (tb : List Char) (hbd : pb.data = b0 :: tb)
    (hb0 : isPySpace b0 = false)
    (c0 : Char) (tc : List Char) (hcd : pc.data = c0 :: tc)
    (hc0 : isPySpace c0 = false) :
    pySplitBlank (pa ++ "\n\n" ++ pb ++ "\n\n" ++ pc) = [pa, pb, pc] := by
  unfold pySplitBlank
  have hdata :
      (pa ++ "\n\n" ++ pb ++ "\n\n" ++ pc).data
        = pa.data ++ '\n' :: '\n' :: b0 :: (tb ++ '\n' :: '\n' :: c0 :: tc) := by
    simp [String.data_append, hbd, hcd]
  rw [hdata, splitBlankGo_sep pa.data hpa [] [] (by simp) b0 hb0 _]
  have htb : ∀ c ∈ tb, c ≠ '\n' := by
    intro c hc
    exact hpb c (by simp [hbd, hc])
  rw [splitBlankGo_sep tb htb [b0] [] (by simp) c0 hc0 tc]
  have htc : ∀ c ∈ tc, c ≠ '\n' := by
    intro c hc
    exact hpc c (by simp [hcd, hc])
  rw [splitBlankGo_no_nl tc htc [c0] [] (by simp)]
  simp [← hbd, ← hcd, mk_data]

/-- A string that begins and ends with non-whitespace characters is left
unchanged by trimming. -/
theorem pyStrip_eq_self (s : String) (c0 cl : Char) (t1 t2 : List Char)
    (h1 : s.data = c0 :: t1) (h2 : s.data = t2 ++ [cl])
    (hc0 : isPySpace c0 = false) (hcl : isPySpace cl = false) :
    pyStrip s = s := by
  unfold pyStrip
  have hd : s.data.dropWhile isPySpace = s.data := by
    rw [h1, List.dropWhile_cons, hc0]
    simp
  rw [hd, h2]
  rw [List.reverse_append, List.reverse_singleton, List.singleton_append,
    List.dropWhile_cons, hcl]
  simp [← h2, mk_data]

/-- A string whose character list is non-empty is not the empty string. -/
theorem ne_empty_of_data (s : String) (c0 : Char) (t : List Char)
    (h : s.data = c0 :: t) : s ≠ "" := by
  intro he
  rw [he] at h
  simp at h

/-- A paragraph whose first character is neither an upper-case C nor an
upper-case P matches no alternative of the break regex. -/
theorem not_break_of_head (s : String) (c0 : Char) (t : List Char)
    (h1 : s.data = c0 :: t) (hC : c0 ≠ 'C') (hP : c0 ≠ 'P') :
    isStructuralBreak s = false := by
  have e1 : "Chapter".data.isPrefixOf (c0 :: t) = false := by
    show (('C' :: "hapter".data).isPrefixOf (c0 :: t)) = false
    simp [List.isPrefixOf, beq_eq_false_iff_ne, Ne.symm hC]
  have e2 : "CHAPTER".data.isPrefixOf (c0 :: t) = false := by
    show (('C' :: "HAPTER".data).isPrefixOf (c0 :: t)) = false
    simp [List.isPrefixOf, beq_eq_false_iff_ne, Ne.symm hC]
  have e3 : "Part".data.isPrefixOf (c0 :: t) = false := by
    show (('P' :: "art".data).isPrefixOf (c0 :: t)) = false
    simp [List.isPrefixOf, beq_eq_false_iff_ne, Ne.symm hP]
  have e4 : "PART".data.isPrefixOf (c0 :: t) = false := by
    show (('P' :: "ART".data).isPrefixOf (c0 :: t)) = false
    simp [List.isPrefixOf, beq_eq_false_iff_ne, Ne.symm hP]
  unfold isStructuralBreak headTokRest
  rw [h1, e1, e2, e3, e4]
  simp

/-- Step equation of the paragraph loop: a non-empty stripped paragraph
that triggers none of the three flush conditions joins the current page. -/
theorem pagesLoop_step_append (preserve : Bool) (target maxW : Nat)
    (para : String) (rest : List String) (current : List String) (count : Nat)
    (h0 : pyStrip para ≠ "")
    (h1 : ¬ (preserve = true ∧ isStructuralBreak (pyStrip para) = true))
    (h2 : ¬ (maxW < count + word_count (pyStrip para) ∧ current ≠ []))
    (h3 : ¬ (target ≤ count ∧ current ≠ [])) :
    pagesLoop preserve target maxW (para :: rest) current count
      = pagesLoop preserve target maxW rest (current ++ [pyStrip para])
          (count + word_count (pyStrip para)) := by
  simp only [pagesLoop]
  rw [if_neg h0, if_neg h1, if_neg h2, if_neg h3]

/-- Step equation of the paragraph loop: once the running count has
reached the target (and the maximum is not overshot), the current page is
flushed and the paragraph starts the next page. -/
theorem pagesLoop_step_target (preserve : Bool) (target maxW : Nat)
    (para : String) (rest : List String) (current : List String) (count : Nat)
    (h0 : pyStrip para ≠ "")
    (h1 : ¬ (preserve = true ∧ isStructuralBreak (pyStrip para) = true))
    (h2 : ¬ (maxW < count + word_count (pyStrip para) ∧ current ≠ []))
    (h3 : target ≤ count ∧ current ≠ []) :
    pagesLoop preserve target maxW (para :: rest) current count
      = current :: pagesLoop preserve target maxW rest [pyStrip para]
          (word_count (pyStrip para)) := by
  simp only [pagesLoop]
  rw [if_neg h0, if_neg h1, if_neg h2, if_pos h3]

/-- Final flush of the paragraph loop: a non-empty current page is emitted
after the last paragraph. -/
theorem pagesLoop_nil_flush (preserve : Bool) (target maxW : Nat)
    (current : List String) (count : Nat) (h : current ≠ []) :
    pagesLoop preserve target maxW [] current count = [current] := by
  simp [pagesLoop, h]

/-- First concrete paragraph of the end-to-end pagination example: 300
words. -/
def paraA : String := manyWords "alpha" 299

/-- Second concrete paragraph of the end-to-end pagination example: 250
words. -/
def paraB : String := manyWords "bravo" 249

/-- Third concrete paragraph of the end-to-end pagination example: 100
words. -/
def paraC : String := manyWords "carol" 99

/-- The concrete three-paragraph source text of the end-to-end pagination
example. -/
def exampleText : String := paraA ++ "\n\n" ++ paraB ++ "\n\n" ++ paraC

/-- Facts about a block of `n + 1` copies of a word whose characters are
all non-whitespace and whose first character rules out the heading tokens:
trimming leaves it unchanged, its word count is `n + 1`, it is not a
structural break, it is non-empty, it contains no newline, and it starts
with the first character of the word. -/
theorem manyWords_pack (w : String) (c0 : Char) (m : List Char) (cl : Char)
    (hwd : w.data = c0 :: (m ++ [cl]))
    (hns : ∀ d ∈ w.data, isPySpace d = false)
    (hC : c0 ≠ 'C') (hP : c0 ≠ 'P') (n : Nat) :
    pyStrip (manyWords w n) = manyWords w n
    ∧ word_count (manyWords w n) = n + 1
    ∧ isStructuralBreak (manyWords w n) = false
    ∧ manyWords w n ≠ ""
    ∧ (∀ c ∈ (manyWords w n).data, c ≠ '\n')
    ∧ ∃ t, (manyWords w n).data = c0 :: t := by
  have hchars : ∀ c ∈ (manyWords w n).data, c ≠ '\n' := by
    intro c hc
    rcases manyWords_chars w n c hc with h | h
    · intro hx
      have := hns c h
      rw [hx] at this
      exact absurd this (by decide)
    · rw [h]
      decide
  obtain ⟨t1, ht1⟩ := manyWords_head w n
  have hhead : (manyWords w n).data = c0 :: ((m ++ [cl]) ++ t1) := by
    rw [ht1, hwd, List.cons_append]
  obtain ⟨t2, ht2⟩ := manyWords_last w n
  have hlast : (manyWords w n).data = (t2 ++ (c0 :: m)) ++ [cl] := by
    rw [ht2, hwd]
    simp
  have hc0 : isPySpace c0 = false := hns c0 (by rw [hwd]; simp)
  have hcl : isPySpace cl = false := hns cl (by rw [hwd]; simp)
  refine ⟨?_, ?_, ?_, ?_, hchars, ⟨_, hhead⟩⟩
  · exact pyStrip_eq_self _ c0 cl _ _ hhead hlast hc0 hcl
  · refine word_count_manyWords c0 (m ++ [cl]) w hwd ?_ n
    intro d hd
    exact hns d (by rw [hwd]; exact hd)
  · exact not_break_of_head _ c0 _ hhead hC hP
  · exact ne_empty_of_data _ c0 _ hhead

/-- C8: for a source text of three paragraphs of 300, 250 and 100 words,
with the configured target of 500 and maximum of 800 words and no
structural break triggered, split_into_pages returns exactly two pages:
the first holding the 300- and 250-word paragraphs, the second the
100-word paragraph. -/
theorem claim8_end_to_end_example :
    word_count paraA = 300 ∧ word_count paraB = 250 ∧ word_count paraC = 100
    ∧ isStructuralBreak paraA = false ∧ isStructuralBreak paraB = false
    ∧ isStructuralBreak paraC = false
    ∧ TARGET_WORDS_PER_PAGE = 500 ∧ MAX_WORDS_PER_PAGE = 800
    ∧ splitIntoPagesParas exampleText = [[paraA, paraB], [paraC]]
    ∧ split_into_pages exampleText = [paraA ++ "\n\n" ++ paraB, paraC] := by
  have hA : pyStrip paraA = paraA ∧ word_count paraA = 300
      ∧ isStructuralBreak paraA = false ∧ paraA ≠ ""
      ∧ (∀ c ∈ paraA.data, c ≠ '\n') ∧ ∃ t, paraA.data = 'a' :: t :=
    manyWords_pack "alpha" 'a' ['l', 'p', 'h'] 'a' rfl (by decide)
      (by decide) (by decide) 299
  have hB : pyStrip paraB = paraB ∧ word_count paraB = 250
      ∧ isStructuralBreak paraB = false ∧ paraB ≠ ""
      ∧ (∀ c ∈ paraB.data, c ≠ '\n') ∧ ∃ t, paraB.data = 'b' :: t :=
    manyWords_pack "bravo" 'b' ['r', 'a', 'v'] 'o' rfl (by decide)
      (by decide) (by decide) 249
  have hC : pyStrip paraC = paraC ∧ word_count paraC = 100
      ∧ isStructuralBreak paraC = false ∧ paraC ≠ ""
      ∧ (∀ c ∈ paraC.data, c ≠ '\n') ∧ ∃ t, paraC.data = 'c' :: t :=
    manyWords_pack "carol" 'c' ['a', 'r', 'o'] 'l' rfl (by decide)
      (by decide) (by decide) 99
  obtain ⟨stripA, wcA, brkA, neA, charsA, _⟩ := hA
  obtain ⟨stripB, wcB, brkB, neB, charsB, tb, htb⟩ := hB
  obtain ⟨stripC, wcC, brkC, neC, charsC, tc, htc⟩ := hC
  have hsplit : pySplitBlank exampleText = [paraA, paraB, paraC] :=
    pySplitBlank_three paraA paraB paraC charsA charsB charsC
      'b' tb htb (by decide) 'c' tc htc (by decide)
  have hpag : splitIntoPagesParas exampleText = [[paraA, paraB], [paraC]] := by
    show pagesLoop true 500 800 (pySplitBlank exampleText) [] 0 = _
    rw [hsplit]
    rw [pagesLoop_step_append true 500 800 paraA [paraB, paraC] [] 0
        (by rw [stripA]; exact neA)
        (by rw [stripA]; simp [brkA])
        (by intro h; exact h.2 rfl)
        (by intro h; exact h.2 rfl)]
    rw [stripA, wcA]
    simp only [List.nil_append]
    rw [pagesLoop_step_append true 500 800 paraB [paraC] [paraA] (0 + 300)
        (by rw [stripB]; exact neB)
        (by rw [stripB]; simp [brkB])
        (by rw [stripB, wcB]; intro h; exact absurd h.1 (by omega))
        (by intro h; exact absurd h.1 (by omega))]
    rw [stripB, wcB]
    simp only [List.singleton_append]
    rw [pagesLoop_step_target true 500 800 paraC [] [paraA, paraB]
        (0 + 300 + 250)
        (by rw [stripC]; exact neC)
        (by rw [stripC]; simp [brkC])
        (by rw [stripC, wcC]; intro h; exact absurd h.1 (by omega))
        ⟨by omega, by simp⟩]
    rw [stripC]
    rw [pagesLoop_nil_flush true 500 800 [paraC] _ (by simp)]
  refine ⟨wcA, wcB, wcC, brkA, brkB, brkC, rfl, rfl, hpag, ?_⟩
  unfold split_into_pages
  rw [hpag]
  rfl

/-- C1: for every input text, concatenating the paragraphs of all pages
returned by split_into_pages, in page order, yields exactly the sequence of
non-empty trimmed paragraphs obtained by splitting the text on runs of
blank lines, in the same order; and each returned page is exactly its
paragraphs joined by a double line-break. -/
theorem claim1_pagination_completeness (text : String) :
    (splitIntoPagesParas text).flatten = nonEmptyParas text
    ∧ split_into_pages text
        = (splitIntoPagesParas text).map (String.intercalate "\n\n") := by
  refine ⟨?_, rfl⟩
  show (pagesLoop PRESERVE_CHAPTER_BREAKS TARGET_WORDS_PER_PAGE
      MAX_WORDS_PER_PAGE (pySplitBlank text) [] 0).flatten = _
  rw [pagesLoop_flatten]
  rfl

/-- C7: every page produced by split_into_pages that contains more than
one paragraph has word count at most MAX_WORDS_PER_PAGE; only a page
consisting of a single paragraph can exceed the maximum. -/
theorem claim7_page_word_bound (text : String) (page : List String)
    (hmem : page ∈ splitIntoPagesParas text) (hlen : 1 < page.length) :
    pageWords page ≤ MAX_WORDS_PER_PAGE :=
  pagesLoop_bound PRESERVE_CHAPTER_BREAKS TARGET_WORDS_PER_PAGE
    MAX_WORDS_PER_PAGE (pySplitBlank text) [] 0 (by simp [pageWords])
    (by simp) page hmem hlen

/-- Witness for C7 at a concrete input: a two-paragraph page produced from
a concrete text satisfies the bound. -/
theorem claim7_witness :
    (["a b", "c d"] ∈ splitIntoPagesParas "a b\n\nc d"
      ∧ 1 < (["a b", "c d"] : List (String)).length)
    ∧ pageWords ["a b", "c d"] ≤ MAX_WORDS_PER_PAGE :=
  ⟨⟨by decide, by decide⟩,
    claim7_page_word_bound "a b\n\nc d" ["a b", "c d"] (by decide) (by decide)⟩

/-- C9: every page returned by split_into_pages contains at least one
paragraph, and the page list is empty exactly when the text has no
non-empty trimmed paragraph. -/
theorem claim9_no_empty_pages (text : String) :
    (∀ page ∈ splitIntoPagesParas text, page ≠ [])
    ∧ (splitIntoPagesParas text = [] ↔ nonEmptyParas text = []) := by
  have hf : (splitIntoPagesParas text).flatten = nonEmptyParas text := by
    show (pagesLoop PRESERVE_CHAPTER_BREAKS TARGET_WORDS_PER_PAGE
        MAX_WORDS_PER_PAGE (pySplitBlank text) [] 0).flatten = _
    rw [pagesLoop_flatten]
    rfl
  constructor
  · intro page hmem
    exact pagesLoop_ne_nil PRESERVE_CHAPTER_BREAKS TARGET_WORDS_PER_PAGE
      MAX_WORDS_PER_PAGE (pySplitBlank text) [] 0 page hmem
  · constructor
    · intro h
      rw [← hf, h]
      rfl
    · intro h
      rw [h] at hf
      cases hres : splitIntoPagesParas text with
      | nil => rfl
      | cons pg rest =>
        rw [hres, List.flatten_cons] at hf
        have hpg : pg = [] := (List.append_eq_nil.mp hf).1
        have hmem : pg ∈ splitIntoPagesParas text := by
          rw [hres]
          exact List.mem_cons_self pg rest
        have hne := pagesLoop_ne_nil PRESERVE_CHAPTER_BREAKS
          TARGET_WORDS_PER_PAGE MAX_WORDS_PER_PAGE (pySplitBlank text) [] 0 pg
          hmem
        exact absurd hpg hne

/-- Witness for C9 at a concrete input: an all-whitespace text produces no
pages. -/
theorem claim9_witness : splitIntoPagesParas " \n \n\t" = [] :=
  (claim9_no_empty_pages " \n \n\t").2.mpr (by decide)

/-- With break preservation on, a paragraph matching the break pattern is
never appended behind another paragraph: provided the current page has no
break paragraph after its first position, neither has any emitted page. -/
theorem pagesLoop_tail_no_break (target maxW : Nat) (paras : List String) :
    ∀ (current : List String) (count : Nat),
    (∀ q ∈ current.tail, isStructuralBreak q = false) →
    ∀ page ∈ pagesLoop true target maxW paras current count,
    ∀ q ∈ page.tail, isStructuralBreak q = false := by
  induction paras with
  | nil =>
    intro current count hcur page hmem
    by_cases h : current = []
    · simp [pagesLoop, h] at hmem
    · simp [pagesLoop, h] at hmem
      rw [hmem]
      exact hcur
  | cons para rest ih =>
    intro current count hcur page hmem
    simp only [pagesLoop] at hmem
    by_cases h0 : pyStrip para = ""
    · rw [if_pos h0] at hmem
      exact ih current count hcur page hmem
    · rw [if_neg h0] at hmem
      by_cases h1 : isStructuralBreak (pyStrip para) = true
      · rw [if_pos (show True ∧ isStructuralBreak (pyStrip para) = true from
          ⟨trivial, h1⟩)] at hmem
        by_cases hc : current = []
        · simp [hc] at hmem
          exact ih [pyStrip para] _ (by simp) page hmem
        · simp [hc] at hmem
          rcases hmem with h | h
          · rw [h]
            exact hcur
          · exact ih [pyStrip para] _ (by simp) page h
      · rw [if_neg (show ¬ (True ∧ isStructuralBreak (pyStrip para) = true) from
          fun hh => h1 hh.2)] at hmem
        have hbrk : isStructuralBreak (pyStrip para) = false := by
          simpa using h1
        by_cases h2 : maxW < count + word_count (pyStrip para) ∧ current ≠ []
        · rw [if_pos h2] at hmem
          rcases List.mem_cons.mp hmem with h | h
          · rw [h]
            exact hcur
          · exact ih [pyStrip para] _ (by simp) page h
        · rw [if_neg h2] at hmem
          by_cases h3 : target ≤ count ∧ current ≠ []
          · rw [if_pos h3] at hmem
            rcases List.mem_cons.mp hmem with h | h
            · rw [h]
              exact hcur
            · exact ih [pyStrip para] _ (by simp) page h
          · rw [if_neg h3] at hmem
            refine ih (current ++ [pyStrip para]) _ ?_ page hmem
            intro q hq
            cases current with
            | nil => simp at hq
            | cons c0 cur =>
              simp only [List.cons_append, List.tail_cons] at hq
              rcases List.mem_append.mp hq with hq1 | hq2
              · exact hcur q (by simpa using hq1)
              · rw [List.mem_singleton.mp hq2]
                exact hbrk

/-- Counterexample to C3 as stated: with break preservation enabled, the
lower-case paragraph beginning with the word chapter does not match the
break pattern, so it is appended to the current page instead of starting a
new one. -/
theorem claim3_counterexample :
    PRESERVE_CHAPTER_BREAKS = true
    ∧ isStructuralBreak "chapter 3 ccc" = false
    ∧ splitIntoPagesParas "aaa bbb\n\nchapter 3 ccc"
        = [["aaa bbb", "chapter 3 ccc"]]
    ∧ splitIntoPagesParas "aaa bbb\n\nchapter 3 ccc"
        ≠ [["aaa bbb"], ["chapter 3 ccc"]] := by
  refine ⟨rfl, by decide, by decide, by decide⟩

/-- C3 amended: with break preservation enabled, every paragraph matching
the break pattern as actually written, with the heading token in one of the
four exact spellings Chapter, CHAPTER, Part or PART (not case-insensitive)
followed by an integer or Roman numeral, begins its own new page: the
current page, if non-empty, is flushed first and the heading paragraph
starts the new page, whatever the running word count; consequently no page
ever holds a break paragraph behind its first position. -/
theorem claim3_break_starts_page (target maxW : Nat) (paras : List String)
    (current : List String) (count : Nat) (para : String)
    (h1 : pyStrip para ≠ "") (h2 : isStructuralBreak (pyStrip para) = true) :
    (pagesLoop true target maxW (para :: paras) current count
      = (if current.isEmpty then [] else [current])
        ++ pagesLoop true target maxW paras [pyStrip para]
            (word_count (pyStrip para)))
    ∧ ∀ (text : String), ∀ page ∈ splitIntoPagesParas text,
        ∀ q ∈ page.tail, isStructuralBreak q = false := by
  constructor
  · simp only [pagesLoop]
    rw [if_neg h1, if_pos (show True ∧ isStructuralBreak (pyStrip para) = true from
      ⟨trivial, h2⟩)]
  · intro text page hmem q hq
    exact pagesLoop_tail_no_break TARGET_WORDS_PER_PAGE MAX_WORDS_PER_PAGE
      (pySplitBlank text) [] 0 (by simp) page hmem q hq

/-- Witness for C3 at a concrete input: a heading paragraph flushes the
non-empty current page and opens the next one, below any word target. -/
theorem claim3_witness :
    pagesLoop true 500 800 ["Chapter 2 x"] ["intro"] 1
      = (if (["intro"] : List String).isEmpty then [] else [["intro"]])
        ++ pagesLoop true 500 800 [] [pyStrip "Chapter 2 x"]
            (word_count (pyStrip "Chapter 2 x")) :=
  (claim3_break_starts_page 500 800 [] ["intro"] 1 "Chapter 2 x"
    (by decide) (by decide)).1

/-- C10: the break test is a prefix match only: any paragraph beginning
with the token Part followed by a space and the Roman numeral letter I
matches, whatever follows; in particular ordinary prose beginning that way
is treated as a structural break and starts its own page. -/
theorem claim10_prefix_match_break :
    (∀ rest : String, isStructuralBreak ("Part I" ++ rest) = true)
    ∧ splitIntoPagesParas "The house stood.\n\nPart I remember best was the garden."
        = [["The house stood."], ["Part I remember best was the garden."]] := by
  constructor
  · intro rest
    obtain ⟨l⟩ := rest
    rfl
  · decide

/-- Counterexample to C2 as stated: the cleanup loop runs over every listed
marker without stopping after a removal, so a text led by two different
markers has both stripped in one call; the result is not among the outcomes
of removing at most one marker. -/
theorem claim2_counterexample :
    clean_content "Here is the translation: Translation: foo" = "foo"
    ∧ clean_content "Here is the translation: Translation: foo"
        ∉ atMostOneStripResults "Here is the translation: Translation: foo" := by
  refine ⟨by decide, by decide⟩

/-- C2 amended: the cleanup strips, in the fixed list order, each listed
marker at most once from the start of the trimmed text; a text starting
with the same marker twice keeps the second occurrence (the spec example
holds: Translation: Translation: foo becomes Translation: foo, not foo),
but two different listed markers can both be stripped in one call (Here is
the translation: Translation: foo becomes foo), and a trimmed text
matching no marker is returned unchanged. -/
theorem claim2_prefix_strip_amended :
    clean_content "Translation: Translation: foo" = "Translation: foo"
    ∧ clean_content "Here is the translation: Translation: foo" = "foo"
    ∧ clean_content "plain text stays" = "plain text stays" := by
  refine ⟨by decide, by decide, by decide⟩

/-- The retry loop makes at most `left` calls and every call carries the
request it was given. -/
theorem attemptLoop_calls (cap : ChatRequest → Nat → Except String RawReply)
    (req : ChatRequest) :
    ∀ (left attempts : Nat),
    (attemptLoop cap req attempts left).2.length ≤ left
    ∧ ∀ r ∈ (attemptLoop cap req attempts left).2, r = req := by
  intro left
  induction left with
  | zero =>
    intro attempts
    exact ⟨by simp [attemptLoop], by simp [attemptLoop]⟩
  | succ left ih =>
    intro attempts
    cases hc : cap req attempts with
    | ok r =>
      refine ⟨?_, ?_⟩ <;> simp [attemptLoop, hc]
    | error e =>
      by_cases hl : left = 0
      · subst hl
        refine ⟨?_, ?_⟩ <;> simp [attemptLoop, hc]
      · constructor
        · have h1 := (ih (attempts + 1)).1
          simp only [attemptLoop, hc, if_neg hl]
          simpa using Nat.succ_le_succ h1
        · intro r hr
          simp only [attemptLoop, hc, if_neg hl] at hr
          rcases List.mem_cons.mp hr with h | h
          · exact h
          · exact (ih (attempts + 1)).2 r h

/-- If the capability fails on the `k` attempts after `attempts` and
succeeds on the next one, which the budget still allows, the retry loop
returns that success after exactly `k + 1` identical calls. -/
theorem attemptLoop_success (cap : ChatRequest → Nat → Except String RawReply)
    (req : ChatRequest) :
    ∀ (left k attempts : Nat) (v : RawReply),
    k < left →
    (∀ i, i < k → ∃ e, cap req (attempts + i) = Except.error e) →
    cap req (attempts + k) = Except.ok v →
    attemptLoop cap req attempts left
      = (Except.ok v, List.replicate (k + 1) req) := by
  intro left
  induction left with
  | zero =>
    intro k attempts v hk
    exact absurd hk (Nat.not_lt_zero k)
  | succ left ih =>
    intro k attempts v hk hfail hok
    cases k with
    | zero =>
      have h0 : cap req attempts = Except.ok v := by simpa using hok
      simp [attemptLoop, h0]
    | succ k =>
      obtain ⟨e, he⟩ := hfail 0 (by omega)
      have he0 : cap req attempts = Except.error e := by simpa using he
      have hl : left ≠ 0 := by omega
      simp only [attemptLoop, he0, if_neg hl]
      rw [ih k (attempts + 1) v (by omega)
        (fun i hi => by
          obtain ⟨e2, he2⟩ := hfail (i + 1) (by omega)
          refine ⟨e2, ?_⟩
          rw [show attempts + 1 + i = attempts + (i + 1) from by omega]
          exact he2)
        (by
          rw [show attempts + 1 + k = attempts + (k + 1) from by omega]
          exact hok)]
      rfl

/-- If the capability fails on every attempt the budget allows, the retry
loop propagates the error of the last attempt after exactly `left`
identical calls. -/
theorem attemptLoop_allfail (cap : ChatRequest → Nat → Except String RawReply)
    (req : ChatRequest) (es : Nat → String) :
    ∀ (left attempts : Nat), 0 < left →
    (∀ i, i < left → cap req (attempts + i) = Except.error (es (attempts + i))) →
    attemptLoop cap req attempts left
      = (Except.error (es (attempts + left - 1)), List.replicate left req) := by
  intro left
  induction left with
  | zero =>
    intro attempts h0
    exact absurd h0 (Nat.lt_irrefl 0)
  | succ left ih =>
    intro attempts _ hfail
    have he0 : cap req attempts = Except.error (es attempts) := by
      simpa using hfail 0 (by omega)
    cases hl : left with
    | zero =>
      simp [attemptLoop, he0]
    | succ left2 =>
      rw [← hl]
      have hlne : left ≠ 0 := by omega
      simp only [attemptLoop, he0, if_neg hlne]
      rw [ih (attempts + 1) (by omega)
        (fun i hi => by
          have hx := hfail (i + 1) (by omega)
          rw [show attempts + 1 + i = attempts + (i + 1) from by omega]
          exact hx)]
      refine Prod.ext ?_ rfl
      show Except.error (es (attempts + 1 + left - 1)) = _
      have : attempts + 1 + left - 1 = attempts + (left + 1) - 1 := by omega
      rw [this]

/-- C5: translate_page calls the generation capability at most
RETRY_ATTEMPTS times, every call carrying the identical request built once
from the page; if the capability fails the first n - 1 times and succeeds
on attempt n within the budget, translate_page returns that attempt's
output (cleaned final text with its reasoning) after exactly n calls; if
every allowed attempt fails, the error of the last attempt propagates. -/
theorem claim5_retry_bound (cap : ChatRequest → Nat → Except String RawReply)
    (page_text : String) :
    ((translate_page cap page_text).2.length ≤ RETRY_ATTEMPTS
      ∧ ∀ r ∈ (translate_page cap page_text).2, r = mkRequest page_text)
    ∧ (∀ (n : Nat) (v : RawReply), 1 ≤ n → n ≤ RETRY_ATTEMPTS →
        (∀ i, i + 1 < n → ∃ e, cap (mkRequest page_text) i = Except.error e) →
        cap (mkRequest page_text) (n - 1) = Except.ok v →
        (translate_page cap page_text).1 = Except.ok (clean_content v.1, v.2)
          ∧ (translate_page cap page_text).2.length = n)
    ∧ (∀ es : Nat → String,
        (∀ i, i < RETRY_ATTEMPTS →
          cap (mkRequest page_text) i = Except.error (es i)) →
        (translate_page cap page_text).1
          = Except.error (es (RETRY_ATTEMPTS - 1))) := by
  refine ⟨⟨?_, ?_⟩, ?_, ?_⟩
  · exact (attemptLoop_calls cap (mkRequest page_text) RETRY_ATTEMPTS 0).1
  · exact (attemptLoop_calls cap (mkRequest page_text) RETRY_ATTEMPTS 0).2
  · intro n v h1 h3 hfail hok
    have hs := attemptLoop_success cap (mkRequest page_text)
      RETRY_ATTEMPTS (n - 1) 0 v
      (by rw [show RETRY_ATTEMPTS = 3 from rfl] at h3 ⊢; omega)
      (fun i hi => by
        obtain ⟨e, he⟩ := hfail i (by omega)
        exact ⟨e, by simpa using he⟩)
      (by simpa using hok)
    constructor
    · show (attemptLoop cap (mkRequest page_text) 0 RETRY_ATTEMPTS).1.map _ = _
      rw [hs]
      rfl
    · show (attemptLoop cap (mkRequest page_text) 0 RETRY_ATTEMPTS).2.length = n
      rw [hs]
      simp
      omega
  · intro es hfail
    have hs := attemptLoop_allfail cap (mkRequest page_text) es RETRY_ATTEMPTS 0
      (by rw [show RETRY_ATTEMPTS = 3 from rfl]; omega)
      (fun i hi => by simpa using hfail i hi)
    show (attemptLoop cap (mkRequest page_text) 0 RETRY_ATTEMPTS).1.map _ = _
    rw [hs]
    rfl

/-- Concrete capability for the C5 witness: the first attempt fails, every
later attempt succeeds. -/
def capC5 : ChatRequest → Nat → Except String RawReply :=
  fun _ i => if i = 0 then Except.error "e0" else Except.ok ("out", "th")

/-- Witness for C5 at a concrete input: with a capability failing once then
succeeding, translate_page returns the second attempt's output after
exactly two calls. -/
theorem claim5_witness :
    (translate_page capC5 "pg").1 = Except.ok (clean_content "out", "th")
    ∧ (translate_page capC5 "pg").2.length = 2 :=
  (claim5_retry_bound capC5 "pg").2.1 2 ("out", "th") (by omega) (by decide)
    (fun i hi => ⟨"e0", by
      have h0 : i = 0 := by omega
      rw [h0]
      rfl⟩)
    rfl

/-- The output artifact accumulated by the page loop is the initial content
followed by the contributions of the successful pages. -/
theorem mainLoop_artifact (oracle : Nat → Except String (String × String)) :
    ∀ (entries : List (Nat × String)) (out : String) (log : List TraceEntry),
    (mainLoop oracle entries out log).1 = out ++ artifactSpec oracle entries := by
  intro entries
  induction entries with
  | nil =>
    intro out log
    simp [mainLoop, artifactSpec]
  | cons e rest ih =>
    intro out log
    obtain ⟨i, page⟩ := e
    cases hc : oracle i with
    | error er =>
      simp [mainLoop, artifactSpec, hc, ih]
    | ok r =>
      obtain ⟨t, th⟩ := r
      simp only [mainLoop, artifactSpec, hc]
      rw [ih]
      simp [String.append_assoc]

/-- Every record of the thinking log produced by the page loop was either
already present or belongs to a page whose processing succeeded. -/
theorem mainLoop_trace (oracle : Nat → Except String (String × String)) :
    ∀ (entries : List (Nat × String)) (out : String) (log : List TraceEntry),
    ∀ en ∈ (mainLoop oracle entries out log).2,
      en ∈ log ∨ ∃ t th, oracle en.page = Except.ok (t, th) := by
  intro entries
  induction entries with
  | nil =>
    intro out log en hen
    exact Or.inl hen
  | cons e rest ih =>
    intro out log en hen
    obtain ⟨i, page⟩ := e
    cases hc : oracle i with
    | error er =>
      simp only [mainLoop, hc] at hen
      exact ih _ _ en hen
    | ok r =>
      obtain ⟨t, th⟩ := r
      simp only [mainLoop, hc] at hen
      rcases ih _ _ en hen with h | h
      · by_cases hth : SAVE_THINKING_LOG = true ∧ th ≠ ""
        · rw [if_pos hth] at h
          rcases List.mem_append.mp h with h2 | h2
          · exact Or.inl h2
          · refine Or.inr ⟨t, th, ?_⟩
            rw [List.mem_singleton.mp h2]
            exact hc
        · rw [if_neg hth] at h
          exact Or.inl h
      · exact Or.inr h

/-- C6: when processing a page fails, the loop appends nothing for it to
the output artifact or the thinking log, both left exactly as before the
page started, and continues with the remaining pages; consequently no
thinking-log record of a run carries the number of a failed page. -/
theorem claim6_failure_skips_page
    (oracle : Nat → Except String (String × String)) (i : Nat) (page : String)
    (rest : List (Nat × String)) (out : String) (log : List TraceEntry)
    (e : String) (hf : oracle i = Except.error e) :
    mainLoop oracle ((i, page) :: rest) out log = mainLoop oracle rest out log
    ∧ ∀ (pages : List String), ∀ en ∈ (runMain oracle pages).2, en.page ≠ i := by
  constructor
  · simp [mainLoop, hf]
  · intro pages en hen hpe
    rcases mainLoop_trace oracle (List.enumFrom 1 pages) "" [] en hen
      with h | ⟨t, th, hok⟩
    · simp at h
    · rw [hpe, hf] at hok
      cases hok

/-- Concrete outcome function for the C6 witness: page 1 fails, later pages
succeed. -/
def oracleC6 : Nat → Except String (String × String) :=
  fun i => if i = 1 then Except.error "boom" else Except.ok ("tb", "th")

/-- Witness for C6 at a concrete input: the failing first page leaves the
loop state untouched and the run continues with the second page. -/
theorem claim6_witness :
    mainLoop oracleC6 [(1, "pa"), (2, "pb")] "" []
      = mainLoop oracleC6 [(2, "pb")] "" [] :=
  (claim6_failure_skips_page oracleC6 1 "pa" [(2, "pb")] "" [] "boom" rfl).1

/-- Concrete outcome function for the C4 counterexample: page 1 fails,
later pages succeed with no reasoning text. -/
def oracleC4 : Nat → Except String (String × String) :=
  fun i => if i = 1 then Except.error "boom" else Except.ok ("tb", "")

/-- Counterexample to C4 as stated: when page 1 fails and page 2 succeeds,
the artifact is not the successful texts joined with no leading separator:
the separator is written whenever the page number exceeds 1, so the file
starts with a double line-break. -/
theorem claim4_counterexample :
    (runMain oracleC4 ["pa", "pb"]).1 = "\n\n" ++ "tb"
    ∧ (runMain oracleC4 ["pa", "pb"]).1 ≠ "tb" := by
  refine ⟨by decide, by decide⟩

/-- C4 amended: at the end of the run the output artifact equals the
concatenation, over the pages that completed successfully in page order,
of the page final text preceded by a double line-break exactly when its
page number exceeds 1.  Hence successful pages are joined by double
line-breaks with no trailing separator, and the artifact carries a leading
separator exactly when some page succeeded but page 1 did not. -/
theorem claim4_artifact_amended
    (oracle : Nat → Except String (String × String)) (pages : List String) :
    (runMain oracle pages).1 = artifactSpec oracle (List.enumFrom 1 pages) := by
  show (mainLoop oracle (List.enumFrom 1 pages) "" []).1 = _
  rw [mainLoop_artifact]
  obtain ⟨d⟩ := artifactSpec oracle (List.enumFrom 1 pages)
  rfl

end AfterWords
